import Mathlib

/-!
# Verification of the jattach-go attach engine

Shallow embedding of the pure logic of the jattach-go repository:
the HotSpot request framing and response parsing (`internal/protocol/hotspot.go`),
the OpenJ9 rendezvous, authentication and response reading
(`internal/protocol/openj9.go`), and the HotSpot→OpenJ9 command translator
(`TranslateCommand`).

Go strings and byte slices are modelled as `List Char` (byte-for-byte exact on
ASCII data, which is all the attach protocol carries); socket reads are
modelled as lists of chunks; filesystem and lock effects are modelled by
explicit state.
-/

namespace Jattach

/-- The NUL byte, used as field separator/terminator in both wire protocols. -/
def nulChar : Char := Char.ofNat 0

/-- `strings.Join(xs, " ")`: elements joined with single spaces. -/
def joinSpace : List (List Char) → List Char
  | [] => []
  | [x] => x
  | x :: xs => x ++ ' ' :: joinSpace xs

/-- `strings.Join(xs, ",")`: elements joined with commas
(used by the `jcmd` translation). -/
def joinComma : List (List Char) → List Char
  | [] => []
  | [x] => x
  | x :: xs => x ++ ',' :: joinComma xs

/-- `strings.HasPrefix s pre` / `bytes.HasPrefix`. -/
def goHasPrefix (s pre : List Char) : Bool :=
  s.take pre.length == pre

/-- Go whitespace class used by `strings.TrimSpace` / `bytes.TrimSpace`
(ASCII part: space, \t, \n, \v, \f, \r). -/
def isSpaceGo (c : Char) : Bool :=
  c = ' ' || c = '\t' || c = '\n' || c = Char.ofNat 11 || c = Char.ofNat 12 || c = '\r'

/-- `strings.TrimSpace` on ASCII data: strip leading and trailing whitespace. -/
def trimSpace (s : List Char) : List Char :=
  ((s.dropWhile isSpaceGo).reverse.dropWhile isSpaceGo).reverse

/-- Split at the first occurrence of `sep`: returns the part before and after,
or `none` when `sep` does not occur. -/
def splitFirst (sep : Char) : List Char → Option (List Char × List Char)
  | [] => none
  | c :: rest =>
    if c = sep then some ([], rest)
    else (splitFirst sep rest).map (fun p => (c :: p.1, p.2))

/-- `strings.SplitN s sep n` (for `n ≥ 1`): at most `n` pieces; the last piece
is the unsplit remainder. -/
def goSplitN (sep : Char) : Nat → List Char → List (List Char)
  | 0, _ => []
  | 1, s => [s]
  | n + 2, s =>
    match splitFirst sep s with
    | none => [s]
    | some (pre, post) => pre :: goSplitN sep (n + 1) post

/-- Decimal digit run value: `some v` when `ds` is a nonempty all-digit list. -/
def digitsVal (ds : List Char) : Option Nat :=
  if ds ≠ [] ∧ ds.all Char.isDigit then
    some (ds.foldl (fun acc c => acc * 10 + (c.toNat - '0'.toNat)) 0)
  else none

/-- The digit run of a `strconv.Atoi` input, after stripping an optional
leading sign. -/
def atoiDigits (s : List Char) : List Char :=
  match s with
  | '-' :: t => t
  | '+' :: t => t
  | t => t

/-- Whether a `strconv.Atoi` input carries a leading minus sign. -/
def atoiNeg (s : List Char) : Bool :=
  match s with
  | '-' :: _ => true
  | _ => false

/-- `strconv.Atoi` with the error discarded, as the source does
(`code, _ = strconv.Atoi(...)`): optional sign, then decimal digits; any
syntax error yields 0; out-of-range values are clamped to int64 as Go's
`ParseInt` reports them together with a range error that the source ignores. -/
def goAtoi (s : List Char) : Int :=
  match digitsVal (atoiDigits s) with
  | none => 0
  | some v =>
    if atoiNeg s then
      if v > 2 ^ 63 then -(2 ^ 63 : Int) else -(v : Int)
    else
      if v ≥ 2 ^ 63 then (2 ^ 63 : Int) - 1 else (v : Int)

/-- Whether `strconv.Atoi` succeeds syntactically on `s` (sign and digits);
when this is false Go returns value 0 with an error the source discards. -/
def goAtoiOk (s : List Char) : Bool :=
  (digitsVal (atoiDigits s)).isSome

/-! ## HotSpot request framing (`hotspot.go`, `writeCommand`) -/

/-- The argument-slot list the source builds before writing
(`hotspot.go` lines 150–161): for `jcmd` with more than one argument the tail
is merged into one slot; for other verbs with more than three arguments the
source computes `append(args[:3], merged)` — a four-element slice whose last
element the write loop below never reads. -/
def cmdArgsOf (cmd : List Char) (args : List (List Char)) : List (List Char) :=
  if cmd = "jcmd".toList ∧ args.length > 1 then
    [args.headD [], joinSpace args.tail]
  else if args.length > 3 then
    args.take 3 ++ [joinSpace (args.drop 3)]
  else
    args

/-- `writeCommand` (`hotspot.go` lines 143–177): the frame
`"1" NUL verb NUL slot1 NUL slot2 NUL slot3 NUL`, where slot `i` is
`cmdArgs[i]` when present and empty otherwise — the loop runs `i = 0,1,2`
only. -/
def writeCommand (cmd : List Char) (args : List (List Char)) : List Char :=
  let cmdArgs := cmdArgsOf cmd args
  ['1', nulChar] ++ cmd ++ [nulChar]
    ++ (cmdArgs.getD 0 [] ++ [nulChar])
    ++ (cmdArgs.getD 1 [] ++ [nulChar])
    ++ (cmdArgs.getD 2 [] ++ [nulChar])

/-- Number of NUL separators in a frame. -/
def countNul (s : List Char) : Nat := s.count nulChar

/-- Split a frame on NUL separators (full split, no piece limit). -/
def splitNul : List Char → List (List Char)
  | [] => [[]]
  | c :: rest =>
    if c = nulChar then [] :: splitNul rest
    else
      match splitNul rest with
      | [] => [[c]]
      | s :: ss => (c :: s) :: ss

/-! ## Command translator (`TranslateCommand`) -/

/-- `TranslateCommand` (command translator source, lines 14–83): maps a
HotSpot verb and argument list to the OpenJ9 wire command.  Note the switch
has no case for `setflag` or `printflag`; both reach the default arm. -/
def TranslateCommand (cmd : List Char) (args : List (List Char)) : List Char :=
  if cmd = "load".toList then
    if args = [] then "ATTACH_LOADAGENT(,)".toList
    else
      let path := args.headD []
      let absolute := args.length > 1 ∧ args.getD 1 [] = "true".toList
      let options := if args.length > 2 then args.getD 2 [] else []
      if absolute then
        "ATTACH_LOADAGENTPATH(".toList ++ path ++ ",".toList ++ options ++ ")".toList
      else
        "ATTACH_LOADAGENT(".toList ++ path ++ ",".toList ++ options ++ ")".toList
  else if cmd = "jcmd".toList then
    if args = [] then "ATTACH_DIAGNOSTICS:help".toList
    else "ATTACH_DIAGNOSTICS:".toList ++ joinComma args
  else if cmd = "threaddump".toList then
    "ATTACH_DIAGNOSTICS:Thread.print,".toList ++ args.headD []
  else if cmd = "dumpheap".toList then
    "ATTACH_DIAGNOSTICS:Dump.heap,".toList ++ args.headD []
  else if cmd = "inspectheap".toList then
    "ATTACH_DIAGNOSTICS:GC.class_histogram,".toList ++ args.headD []
  else if cmd = "datadump".toList then
    "ATTACH_DIAGNOSTICS:Dump.java,".toList ++ args.headD []
  else if cmd = "properties".toList then
    "ATTACH_GETSYSTEMPROPERTIES".toList
  else if cmd = "agentProperties".toList then
    "ATTACH_GETAGENTPROPERTIES".toList
  else
    cmd

/-! ## HotSpot response parsing (`hotspot.go`, `readResponse`)

The response stream is modelled as the full byte content the JVM sends
(the source's first `conn.Read` plus, for `load`, the `io.Copy` remainder). -/

/-- The parsed JVM response (`protocol.Response`). -/
structure GoResponse where
  code : Int
  output : List Char
  deriving DecidableEq, Repr

/-- First line of the data, as the source computes it:
`bytes.SplitN(data, "\n", 2)[0]`. -/
def firstLineOf (data : List Char) : List Char :=
  (goSplitN '\n' 2 data).headD []

/-- Trimmed second line of the output, as the source computes it for `load`:
`strings.SplitN(output, "\n", 3)`, taking index 1 when at least two pieces
exist, else the empty string. -/
def secondLineOf (output : List Char) : List Char :=
  let lines := goSplitN '\n' 3 output
  if lines.length ≥ 2 then trimSpace (lines.getD 1 []) else []

/-- `readResponse` (`hotspot.go` lines 181–248), with the socket content given
as one byte string `data`.  An empty read is the `unexpected EOF` error
(`none`).  The first-line parse ignores `Atoi` errors.  For verb `load` and
only when the first-line code is 0 (and at least two bytes arrived), the
second line supersedes the code. -/
def readResponse (cmd : List Char) (data : List Char) : Option GoResponse :=
  if data = [] then none
  else
    let code0 := goAtoi (trimSpace (firstLineOf data))
    if cmd = "load".toList then
      let output := data
      let code :=
        if code0 = 0 ∧ output.length ≥ 2 then
          let secondLine := secondLineOf output
          if goHasPrefix secondLine "return code: ".toList then
            goAtoi (trimSpace (secondLine.drop 13))
          else if secondLine ≠ [] ∧
              (('0' ≤ secondLine.headD ' ' ∧ secondLine.headD ' ' ≤ '9') ∨
               secondLine.headD ' ' = '-') then
            goAtoi secondLine
          else if secondLine ≠ [] then
            -1
          else
            code0
        else code0
      some ⟨code, output⟩
    else
      some ⟨code0, data⟩

/-! ## OpenJ9 authentication (`openj9.go`, `acceptClient`) -/

/-- `fmt.Sprintf("%016x", key)` for a `uint64` key: exactly 16 lowercase hex
digits, zero padded, most significant nibble first. -/
def hex16 (key : Nat) : List Char :=
  (List.range 16).map (fun i => Nat.digitChar (key / 16 ^ (15 - i) % 16))

/-- The 35-byte authentication string the client expects
(`openj9.go` line 268): `"ATTACH_CONNECTED " + <16 hex> + " "`. -/
def expectedAuth (key : Nat) : List Char :=
  "ATTACH_CONNECTED ".toList ++ hex16 key ++ [' ']

/-- Outcome of the `acceptClient` authentication phase. -/
inductive AcceptOutcome where
  | accepted
  | prematureClose
  | badAuth
  deriving DecidableEq, Repr

/-- `acceptClient` authentication (`openj9.go` lines 244–278) on the inbound
byte stream: the loop reads until 35 bytes have arrived — if the connection
closes first the read errors (`JVM connection was prematurely closed`);
otherwise the 35 bytes must equal `expectedAuth`, any other content closing
the connection with `unexpected JVM response`. -/
def acceptClientAuth (key : Nat) (inbound : List Char) : AcceptOutcome :=
  if inbound.length < 35 then .prematureClose
  else if inbound.take 35 = expectedAuth key then .accepted
  else .badAuth

/-! ## OpenJ9 response reading (`openj9.go`, `readResponseOpenJ9`)

The socket is modelled by the list of chunks successive `conn.Read` calls
return; bytes are `Nat` values.  The state is the accumulated bytes and the
current buffer length (start 8192, doubled when `offset >= len(buf)`). -/

/-- `readResponseOpenJ9` loop (`openj9.go` lines 298–328).  Returns the body
(the accumulated bytes with the final byte stripped, the source's
`buf[:offset-1]`) and the final buffer length; `none` when a read errors or
returns zero bytes before a chunk ending in NUL arrives.  Note the
terminator test looks only at `buf[offset-1]`, the last byte received so
far. -/
def readRespOpenJ9 (chunks : List (List Nat)) (acc : List Nat) (bufLen : Nat) :
    Option (List Nat) × Nat :=
  match chunks with
  | [] => (none, bufLen)
  | c :: rest =>
    if c = [] then (none, bufLen)
    else if (acc ++ c).getLast? = some 0 then (some (acc ++ c).dropLast, bufLen)
    else if (acc ++ c).length ≥ bufLen then readRespOpenJ9 rest (acc ++ c) (bufLen * 2)
    else readRespOpenJ9 rest (acc ++ c) bufLen

/-! ## System V key derivation (`openj9.go`, `ftok`) -/

/-- The `dev`/`ino` pair `syscall.Stat` reports for a path (`uint64` fields). -/
structure StatT where
  dev : Nat
  ino : Nat
  deriving DecidableEq, Repr

/-- Filesystem view the `ftok` of the source interacts with: the stat of each
existing path, and the stat a freshly created empty file at a path would
receive from the kernel. -/
structure FtokFS where
  files : String → Option StatT
  fresh : String → StatT

/-- The key composition in `ftok` (`openj9.go` line 239):
`(projID << 24) | (int(st.Dev&0xff) << 16) | int(st.Ino&0xffff)`. -/
def ftokKeyOf (projID dev ino : Nat) : Nat :=
  (projID <<< 24) ||| ((dev &&& 0xff) <<< 16) ||| (ino &&& 0xffff)

/-- `ftok` (`openj9.go` lines 223–241): stat the path; if absent, create it as
an empty file and re-stat; return the composed key together with the
resulting filesystem state. -/
def goFtok (fs : FtokFS) (path : String) (projID : Nat) : Nat × FtokFS :=
  match fs.files path with
  | some st => (ftokKeyOf projID st.dev st.ino, fs)
  | none =>
    let st := fs.fresh path
    let fs2 : FtokFS :=
      ⟨fun p => if p = path then some st else fs.files p, fs.fresh⟩
    (ftokKeyOf projID st.dev st.ino, fs2)

/-! ## OpenJ9 attach lock discipline (`openj9.go`, `AttachOpenJ9`)

The rendezvous is modelled as its sequence of file-lock acquire/release
events.  A scenario fixes which fallible step fails (if any) and the
directory entries `lockNotificationFiles` sees; the trace follows the
source's control flow with its `defer`red releases (run last-in first-out on
every return). -/

/-- Identity of a file lock: the global `_attachlock`, or the
`attachNotificationSync` lock of the directory entry at a given position. -/
inductive LockId where
  | attach
  | notif (i : Nat)
  deriving DecidableEq, Repr

/-- A lock acquisition or release event. -/
inductive LockEvent where
  | acq (l : LockId)
  | rel (l : LockId)
  deriving DecidableEq, Repr

/-- What `lockNotificationFiles` observes about one directory entry under
`.com_ibm_tools_attach`: its name, whether `os.Stat` succeeds, whether it is
a directory, and whether `acquireLock` on its `attachNotificationSync`
succeeds. -/
structure NotifEntry where
  name : List Char
  statOk : Bool
  isDir : Bool
  lockOk : Bool

/-- The entry filter in `lockNotificationFiles` (`openj9.go` lines 180–195):
skip names that are empty or whose first byte is outside `'1'..'9'`, and
entries that fail to stat or are not directories. -/
def entryEligible (e : NotifEntry) : Bool :=
  match e.name with
  | [] => false
  | c :: _ => decide ('1' ≤ c ∧ c ≤ '9') && e.statOk && e.isDir

/-- `maxNotifFiles` (`openj9.go` line 23). -/
def maxNotifFiles : Nat := 256

/-- The loop of `lockNotificationFiles` (`openj9.go` lines 179–205): walk the
entries, lock each eligible one (recording its position) when `acquireLock`
succeeds, and stop once `maxNotifFiles` locks are held.  Returns the
positions locked, in order. -/
def lockNotifLoop : List NotifEntry → Nat → List Nat → List Nat
  | [], _, acc => acc
  | e :: rest, i, acc =>
    if entryEligible e then
      let acc2 := if e.lockOk then acc ++ [i] else acc
      if acc2.length ≥ maxNotifFiles then acc2
      else lockNotifLoop rest (i + 1) acc2
    else lockNotifLoop rest (i + 1) acc

/-- One run of `AttachOpenJ9`: which fallible steps fail, and the notifier
directory contents. -/
structure Scenario where
  attachLockOk : Bool
  socketOk : Bool
  replyInfoOk : Bool
  entries : List NotifEntry
  acceptOk : Bool
  writeOk : Bool
  readOk : Bool

/-- The lock event trace of `AttachOpenJ9` (`openj9.go` lines 26–93) under a
scenario.  Each early `return` runs the `defer`s registered so far in LIFO
order: `unlockNotificationFiles` releases the held notifier locks in forward
order (lines 212–218), then `releaseLock(attachLock)` runs. -/
def attachOpenJ9Events (s : Scenario) : List LockEvent :=
  if ¬s.attachLockOk then []
  else if ¬s.socketOk then [.acq .attach, .rel .attach]
  else if ¬s.replyInfoOk then [.acq .attach, .rel .attach]
  else
    let locked := lockNotifLoop s.entries 0 []
    let acqs := locked.map (fun i => LockEvent.acq (.notif i))
    let rels := locked.map (fun i => LockEvent.rel (.notif i))
    let cleanup := rels ++ [LockEvent.rel .attach]
    if ¬s.acceptOk then [LockEvent.acq .attach] ++ acqs ++ cleanup
    else if ¬s.writeOk then [LockEvent.acq .attach] ++ acqs ++ cleanup
    else if ¬s.readOk then [LockEvent.acq .attach] ++ acqs ++ cleanup
    else [LockEvent.acq .attach] ++ acqs ++ cleanup

/-! ## Timeouts (`types.go`, `hotspot.go`, `openj9.go`) -/

/-- `Options` (`types.go` lines 45–58), with the timeout in milliseconds. -/
structure GoOptions where
  printOutput : Bool
  tmpPath : String
  timeoutMs : Nat

/-- The socket poll deadline `startAttachMechanism` actually uses
(`hotspot.go` line 109: `timeout := 6 * time.Second`); the coordinator
passes no timeout to `AttachHotSpot`, so the options play no part. -/
def hotspotPollTimeoutMs (_opts : GoOptions) : Nat := 6000

/-- The accept deadline `acceptClient` actually sets (`openj9.go` line 246:
`SetDeadline(time.Now().Add(5 * time.Second))`); again independent of the
options. -/
def openj9AcceptDeadlineMs (_opts : GoOptions) : Nat := 5000

/-- The eight verbs `TranslateCommand` actually translates; every other verb
reaches the default arm and is returned verbatim. -/
def translatedVerbs : List (List Char) :=
  ["load".toList, "jcmd".toList, "threaddump".toList, "dumpheap".toList,
   "inspectheap".toList, "datadump".toList, "properties".toList,
   "agentProperties".toList]

/-! ## Theorems -/

/-- C1 (code evaluation): the expected authentication string
`"ATTACH_CONNECTED " ++ 16 hex ++ " "` is only 34 bytes long, while
`acceptClient` reads and compares 35 bytes.  Feeding it exactly the expected
string stalls at 34 bytes (premature close), and the intended 35-byte
message (the C original's NUL-terminated form) is rejected as a bad
authentication — no inbound message is ever accepted. -/
theorem claim_C1_code_eval :
    (expectedAuth 0).length = 34 ∧
    acceptClientAuth 0 (expectedAuth 0) = .prematureClose ∧
    acceptClientAuth 0 (expectedAuth 0 ++ [nulChar]) = .badAuth := by
  decide

/-- C2 (code evaluation): for a non-`jcmd` verb with four arguments, the
emitted frame carries only the first three arguments; the fourth (`"d"`)
appears nowhere — the merged extras slot built by `append(args[:3], merged)`
is never written. -/
theorem claim_C2_code_eval :
    writeCommand "properties".toList
        ["a".toList, "b".toList, "c".toList, "d".toList]
      = ['1', nulChar] ++ "properties".toList ++ [nulChar]
          ++ "a".toList ++ [nulChar] ++ "b".toList ++ [nulChar]
          ++ "c".toList ++ [nulChar] ∧
    'd' ∉ writeCommand "properties".toList
        ["a".toList, "b".toList, "c".toList, "d".toList] := by
  decide

/-- C3 (counterexample): `setflag` is in the documented vocabulary, yet
`TranslateCommand` returns it verbatim — the result starts with none of the
five `ATTACH_*` prefixes the claim allows. -/
theorem claim_C3_counterexample :
    TranslateCommand "setflag".toList [] = "setflag".toList ∧
    goHasPrefix (TranslateCommand "setflag".toList [])
      "ATTACH_LOADAGENT".toList = false ∧
    goHasPrefix (TranslateCommand "setflag".toList [])
      "ATTACH_LOADAGENTPATH".toList = false ∧
    goHasPrefix (TranslateCommand "setflag".toList [])
      "ATTACH_DIAGNOSTICS:".toList = false ∧
    goHasPrefix (TranslateCommand "setflag".toList [])
      "ATTACH_GETSYSTEMPROPERTIES".toList = false ∧
    goHasPrefix (TranslateCommand "setflag".toList [])
      "ATTACH_GETAGENTPROPERTIES".toList = false := by
  decide

/-- C3 (amended): every vocabulary verb except `setflag` and `printflag`
translates to a string carrying one of the documented `ATTACH_*` prefixes;
`setflag`, `printflag` and every verb outside the translated set are
returned verbatim with the arguments ignored. -/
theorem claim_C3_amended (args : List (List Char)) :
    goHasPrefix (TranslateCommand "load".toList args)
      "ATTACH_LOADAGENT".toList = true ∧
    goHasPrefix (TranslateCommand "jcmd".toList args)
      "ATTACH_DIAGNOSTICS:".toList = true ∧
    goHasPrefix (TranslateCommand "threaddump".toList args)
      "ATTACH_DIAGNOSTICS:".toList = true ∧
    goHasPrefix (TranslateCommand "dumpheap".toList args)
      "ATTACH_DIAGNOSTICS:".toList = true ∧
    goHasPrefix (TranslateCommand "inspectheap".toList args)
      "ATTACH_DIAGNOSTICS:".toList = true ∧
    goHasPrefix (TranslateCommand "datadump".toList args)
      "ATTACH_DIAGNOSTICS:".toList = true ∧
    goHasPrefix (TranslateCommand "properties".toList args)
      "ATTACH_GETSYSTEMPROPERTIES".toList = true ∧
    goHasPrefix (TranslateCommand "agentProperties".toList args)
      "ATTACH_GETAGENTPROPERTIES".toList = true ∧
    TranslateCommand "setflag".toList args = "setflag".toList ∧
    TranslateCommand "printflag".toList args = "printflag".toList ∧
    ∀ cmd : List Char, cmd ∉ translatedVerbs → TranslateCommand cmd args = cmd := by
  refine ⟨?_, ?_, rfl, rfl, rfl, rfl, rfl, rfl, rfl, rfl, ?_⟩
  · rcases args with _ | ⟨a, rest⟩
    · decide
    · unfold TranslateCommand
      split
      · split
        · simp_all
        · dsimp only
          split <;> rfl
      · simp_all
  · rcases args with _ | ⟨a, rest⟩
    · decide
    · unfold TranslateCommand
      split
      · simp_all
      · split
        · split
          · simp_all
          · rfl
        · simp_all
  · intro cmd h
    simp only [translatedVerbs, List.mem_cons, not_or] at h
    obtain ⟨h1, h2, h3, h4, h5, h6, h7, h8, -⟩ := h
    unfold TranslateCommand
    rw [if_neg h1, if_neg h2, if_neg h3, if_neg h4, if_neg h5, if_neg h6,
      if_neg h7, if_neg h8]

/-- C3 (witness): the amended theorem applied at a concrete argument list
and a concrete out-of-vocabulary verb. -/
theorem claim_C3_amended_witness :
    goHasPrefix (TranslateCommand "load".toList ["x".toList])
      "ATTACH_LOADAGENT".toList = true ∧
    TranslateCommand "foo".toList ["x".toList] = "foo".toList :=
  ⟨(claim_C3_amended ["x".toList]).1,
   (claim_C3_amended ["x".toList]).2.2.2.2.2.2.2.2.2.2 "foo".toList (by decide)⟩

/-- C4 (counterexample): a verb containing a NUL byte puts six NUL bytes in
the frame, not the five the claim asserts for every verb and argument
list. -/
theorem claim_C4_counterexample :
    countNul (writeCommand ['a', nulChar] []) = 6 ∧
    countNul (writeCommand ['a', nulChar] []) ≠ 5 := by
  decide

/-- Joining NUL-free strings with spaces yields a NUL-free string. -/
theorem nulFree_joinSpace : ∀ xs : List (List Char),
    (∀ x ∈ xs, nulChar ∉ x) → nulChar ∉ joinSpace xs := by
  intro xs
  induction xs with
  | nil => simp [joinSpace]
  | cons x rest ih =>
    intro h
    cases rest with
    | nil => simpa [joinSpace] using h x (by simp)
    | cons y t =>
      show nulChar ∉ x ++ ' ' :: joinSpace (y :: t)
      intro hmem
      rcases List.mem_append.mp hmem with hx | hx
      · exact h x (by simp) hx
      · rcases List.mem_cons.mp hx with hsp | hj
        · exact absurd hsp (by decide)
        · exact ih (fun z hz => h z (by simp [hz])) hj

/-- Every slot `cmdArgsOf` builds from NUL-free arguments is NUL-free. -/
theorem cmdArgsOf_nulFree (cmd : List Char) (args : List (List Char))
    (hargs : ∀ a ∈ args, nulChar ∉ a) :
    ∀ x ∈ cmdArgsOf cmd args, nulChar ∉ x := by
  unfold cmdArgsOf
  split
  · intro x hx
    rcases List.mem_cons.mp hx with rfl | hx2
    · cases args with
      | nil => simp
      | cons a t => exact hargs a (by simp)
    · rcases List.mem_cons.mp hx2 with rfl | h3
      · exact nulFree_joinSpace _ (fun z hz => hargs z (List.mem_of_mem_tail hz))
      · simp at h3
  · split
    · intro x hx
      rcases List.mem_append.mp hx with hx2 | hx2
      · exact hargs x (List.mem_of_mem_take hx2)
      · rcases List.mem_cons.mp hx2 with rfl | h3
        · exact nulFree_joinSpace _ (fun z hz => hargs z (List.mem_of_mem_drop hz))
        · simp at h3
    · exact fun x hx => hargs x hx

/-- A NUL-free indexed slot: `getD` over a NUL-free list is NUL-free. -/
theorem nulFree_getD (l : List (List Char)) (h : ∀ x ∈ l, nulChar ∉ x)
    (i : Nat) : nulChar ∉ l.getD i [] := by
  induction l generalizing i with
  | nil => simp [List.getD]
  | cons a t ih =>
    cases i with
    | zero => simpa [List.getD] using h a (by simp)
    | succ n =>
      simpa [List.getD] using ih (fun x hx => h x (by simp [hx])) n

/-- Splitting on NUL peels a NUL-free piece before the first separator. -/
theorem splitNul_append (xs rest : List Char) (h : nulChar ∉ xs) :
    splitNul (xs ++ nulChar :: rest) = xs :: splitNul rest := by
  induction xs with
  | nil => simp [splitNul]
  | cons c t ih =>
    have hc : c ≠ nulChar := fun hc => h (hc ▸ List.mem_cons_self c t)
    have ht : nulChar ∉ t := fun hm => h (List.mem_cons_of_mem c hm)
    show splitNul (c :: (t ++ nulChar :: rest)) = (c :: t) :: splitNul rest
    rw [splitNul, if_neg hc, ih ht]

/-- C4 (amended): for every verb and argument list whose bytes are NUL-free,
the emitted frame is `"1" NUL verb NUL slot1 NUL slot2 NUL slot3 NUL` with
exactly five NUL separators; splitting on NUL recovers the version byte, the
verb and the three slots (unused slots as empty pieces before their NUL);
and for verb `jcmd` with more than one argument slot 1 is `a[0]`, slot 2 is
the remaining arguments joined with single spaces, and slot 3 is empty. -/
theorem claim_C4_amended (cmd : List Char) (args : List (List Char))
    (hcmd : nulChar ∉ cmd) (hargs : ∀ a ∈ args, nulChar ∉ a) :
    countNul (writeCommand cmd args) = 5 ∧
    splitNul (writeCommand cmd args)
      = [['1'], cmd, (cmdArgsOf cmd args).getD 0 [],
         (cmdArgsOf cmd args).getD 1 [], (cmdArgsOf cmd args).getD 2 [], []] ∧
    (cmd = "jcmd".toList → args.length > 1 →
      (cmdArgsOf cmd args).getD 0 [] = args.headD [] ∧
      (cmdArgsOf cmd args).getD 1 [] = joinSpace args.tail ∧
      (cmdArgsOf cmd args).getD 2 [] = []) := by
  have hslots := cmdArgsOf_nulFree cmd args hargs
  have hs0 := nulFree_getD _ hslots 0
  have hs1 := nulFree_getD _ hslots 1
  have hs2 := nulFree_getD _ hslots 2
  have hframe : writeCommand cmd args
      = ['1'] ++ nulChar :: (cmd ++ nulChar ::
          ((cmdArgsOf cmd args).getD 0 [] ++ nulChar ::
            ((cmdArgsOf cmd args).getD 1 [] ++ nulChar ::
              ((cmdArgsOf cmd args).getD 2 [] ++ nulChar :: ([] : List Char))))) := by
    simp [writeCommand]
  refine ⟨?_, ?_, ?_⟩
  · rw [countNul, hframe]
    have c1 : List.count nulChar ['1'] = 0 := by decide
    have ccmd : List.count nulChar cmd = 0 := List.count_eq_zero.mpr hcmd
    have c2 : List.count nulChar ((cmdArgsOf cmd args).getD 0 []) = 0 :=
      List.count_eq_zero.mpr hs0
    have c3 : List.count nulChar ((cmdArgsOf cmd args).getD 1 []) = 0 :=
      List.count_eq_zero.mpr hs1
    have c4 : List.count nulChar ((cmdArgsOf cmd args).getD 2 []) = 0 :=
      List.count_eq_zero.mpr hs2
    simp only [List.count_append, List.count_cons, List.count_nil, c1, ccmd,
      c2, c3, c4]
    decide
  · rw [hframe, splitNul_append _ _ (by decide), splitNul_append _ _ hcmd,
      splitNul_append _ _ hs0, splitNul_append _ _ hs1, splitNul_append _ _ hs2]
    rfl
  · intro h1 h2
    unfold cmdArgsOf
    rw [if_pos ⟨h1, h2⟩]
    exact ⟨rfl, rfl, rfl⟩

/-- C4 (witness): the amended theorem at verb `jcmd` with three arguments;
the frame splits into the version byte, the verb, `a[0]`, the joined
remainder, an empty slot and the trailing empty piece. -/
theorem claim_C4_amended_witness :
    countNul (writeCommand "jcmd".toList
      ["a".toList, "b".toList, "c".toList]) = 5 ∧
    splitNul (writeCommand "jcmd".toList ["a".toList, "b".toList, "c".toList])
      = [['1'], "jcmd".toList, "a".toList, "b c".toList, [], []] := by
  have h := claim_C4_amended "jcmd".toList ["a".toList, "b".toList, "c".toList]
    (by decide) (by decide)
  exact ⟨h.1, by rw [h.2.1]; decide⟩

/-- C5 (counterexample): with response `"7\nreturn code: 3\n"` the second
line begins with `"return code: "`, yet the returned status is the
first-line code 7, not 3 — the body parsing only runs when the first-line
code is 0. -/
theorem claim_C5_counterexample :
    goHasPrefix (secondLineOf "7\nreturn code: 3\n".toList)
      "return code: ".toList = true ∧
    readResponse "load".toList "7\nreturn code: 3\n".toList
      = some ⟨7, "7\nreturn code: 3\n".toList⟩ ∧
    (7 : Int) ≠ 3 := by
  decide

/-- Unfolding `goSplitN` at piece limit 3. -/
theorem goSplitN_three (sep : Char) (s : List Char) :
    goSplitN sep 3 s = match splitFirst sep s with
      | none => [s]
      | some (pre, post) => pre :: goSplitN sep 2 post := rfl

/-- Unfolding `goSplitN` at piece limit 2. -/
theorem goSplitN_two (sep : Char) (s : List Char) :
    goSplitN sep 2 s = match splitFirst sep s with
      | none => [s]
      | some (pre, post) => [pre, post] := rfl

/-- `splitFirst` decomposes its input around the first separator. -/
theorem splitFirst_some (sep : Char) :
    ∀ s pre post : List Char, splitFirst sep s = some (pre, post) →
      s = pre ++ sep :: post := by
  intro s
  induction s with
  | nil => intro pre post h; simp [splitFirst] at h
  | cons c t ih =>
    intro pre post h
    by_cases hc : c = sep
    · rw [splitFirst, if_pos hc] at h
      simp only [Option.some.injEq, Prod.mk.injEq] at h
      rw [← h.1, ← h.2, hc]
      rfl
    · rw [splitFirst, if_neg hc] at h
      cases ht : splitFirst sep t with
      | none => rw [ht] at h; simp at h
      | some pq =>
        obtain ⟨p, q⟩ := pq
        rw [ht] at h
        have hh : c :: p = pre ∧ q = post := by simpa using h
        rw [← hh.1, ← hh.2]
        simpa using ih p q ht

/-- A nonempty second line forces the output to hold at least two bytes,
making the `len(output) >= 2` guard in the source redundant with the branch
conditions. -/
theorem two_le_length_of_secondLine (data : List Char)
    (h : secondLineOf data ≠ []) : 2 ≤ data.length := by
  unfold secondLineOf at h
  cases hsf : splitFirst '\n' data with
  | none =>
    exfalso
    apply h
    have h3 : goSplitN '\n' 3 data = [data] := by rw [goSplitN_three, hsf]
    rw [h3]
    rfl
  | some pq =>
    obtain ⟨pre, post⟩ := pq
    have hdata : data = pre ++ '\n' :: post := splitFirst_some _ _ _ _ hsf
    have h3 : goSplitN '\n' 3 data = pre :: goSplitN '\n' 2 post := by
      rw [goSplitN_three, hsf]
    cases hsf2 : splitFirst '\n' post with
    | none =>
      have h2 : goSplitN '\n' 2 post = [post] := by rw [goSplitN_two, hsf2]
      have hpost : post ≠ [] := by
        intro hp
        apply h
        rw [h3, h2, hp]
        rfl
      have hlen : 0 < post.length := List.length_pos.mpr hpost
      rw [hdata]
      simp
      omega
    | some pq2 =>
      obtain ⟨p2, q2⟩ := pq2
      have hpost : post = p2 ++ '\n' :: q2 := splitFirst_some _ _ _ _ hsf2
      rw [hdata, hpost]
      simp
      omega

/-- When `strconv.Atoi` fails syntactically, the discarded-error idiom leaves
the value 0. -/
theorem goAtoi_eq_zero_of_syntax_err (s : List Char) (h : goAtoiOk s = false) :
    goAtoi s = 0 := by
  have hnone : digitsVal (atoiDigits s) = none :=
    Option.not_isSome_iff_eq_none.mp (by simpa [goAtoiOk] using h)
  unfold goAtoi
  rw [hnone]

/-- C5 (amended): for verb `load`, when the first-line code parses to 0 the
second line supersedes it — `"return code: "` prefix: the integer after it;
first character a digit or `-`: the whole second line as integer; other
non-empty text: −1; empty second line (or non-zero first-line code, see the
counterexample): the first-line code is retained. -/
theorem claim_C5_amended (data : List Char) (hne : data ≠ [])
    (h0 : goAtoi (trimSpace (firstLineOf data)) = 0) :
    (goHasPrefix (secondLineOf data) "return code: ".toList = true →
      readResponse "load".toList data
        = some ⟨goAtoi (trimSpace ((secondLineOf data).drop 13)), data⟩) ∧
    (goHasPrefix (secondLineOf data) "return code: ".toList = false →
      secondLineOf data ≠ [] →
      (('0' ≤ (secondLineOf data).headD ' ' ∧ (secondLineOf data).headD ' ' ≤ '9') ∨
        (secondLineOf data).headD ' ' = '-') →
      readResponse "load".toList data = some ⟨goAtoi (secondLineOf data), data⟩) ∧
    (goHasPrefix (secondLineOf data) "return code: ".toList = false →
      secondLineOf data ≠ [] →
      ¬(('0' ≤ (secondLineOf data).headD ' ' ∧ (secondLineOf data).headD ' ' ≤ '9') ∨
        (secondLineOf data).headD ' ' = '-') →
      readResponse "load".toList data = some ⟨-1, data⟩) ∧
    (secondLineOf data = [] →
      readResponse "load".toList data = some ⟨0, data⟩) := by
  refine ⟨?_, ?_, ?_, ?_⟩
  · intro hpre
    have hS : secondLineOf data ≠ [] := by
      intro hnil
      rw [hnil] at hpre
      exact absurd hpre (by decide)
    have hlen : data.length ≥ 2 := two_le_length_of_secondLine data hS
    unfold readResponse
    rw [if_neg hne, if_pos rfl]
    dsimp only
    rw [if_pos ⟨h0, hlen⟩, if_pos hpre]
  · intro hpre hS hd
    have hlen : data.length ≥ 2 := two_le_length_of_secondLine data hS
    unfold readResponse
    rw [if_neg hne, if_pos rfl]
    dsimp only
    rw [if_pos ⟨h0, hlen⟩,
      if_neg (by simpa using hpre : ¬goHasPrefix (secondLineOf data)
        "return code: ".toList = true), if_pos ⟨hS, hd⟩]
  · intro hpre hS hd
    have hlen : data.length ≥ 2 := two_le_length_of_secondLine data hS
    unfold readResponse
    rw [if_neg hne, if_pos rfl]
    dsimp only
    rw [if_pos ⟨h0, hlen⟩,
      if_neg (by simpa using hpre : ¬goHasPrefix (secondLineOf data)
        "return code: ".toList = true),
      if_neg (fun hc => hd hc.2), if_pos hS]
  · intro hS0
    unfold readResponse
    by_cases hlen : data.length ≥ 2
    · rw [if_neg hne, if_pos rfl]
      dsimp only
      rw [if_pos ⟨h0, hlen⟩, hS0,
        if_neg (by decide : ¬goHasPrefix [] "return code: ".toList = true),
        if_neg (by simp), if_neg (by simp), h0]
    · rw [if_neg hne, if_pos rfl]
      dsimp only
      rw [if_neg (fun hc => hlen hc.2), h0]

/-- C5 (witness): the amended theorem on the JDK-9-style response
`"0\nreturn code: 4\n"`. -/
theorem claim_C5_amended_witness :
    readResponse "load".toList "0\nreturn code: 4\n".toList
      = some ⟨4, "0\nreturn code: 4\n".toList⟩ := by
  have h := (claim_C5_amended "0\nreturn code: 4\n".toList (by decide)
    (by decide)).1 (by decide)
  rw [h]
  decide

/-- C10 (amended): an unparsable first line never makes `readResponse`
return an error — the status silently becomes 0; for every verb other than
`load` the response is exactly `⟨0, data⟩`, while for `load` the zero status
feeds the second-line supersession (see the counterexample). -/
theorem claim_C10_amended (cmd data : List Char) (hne : data ≠ [])
    (hbad : goAtoiOk (trimSpace (firstLineOf data)) = false) :
    (readResponse cmd data).isSome = true ∧
    (cmd ≠ "load".toList → readResponse cmd data = some ⟨0, data⟩) := by
  have h0 : goAtoi (trimSpace (firstLineOf data)) = 0 :=
    goAtoi_eq_zero_of_syntax_err _ hbad
  constructor
  · unfold readResponse
    rw [if_neg hne]
    split
    · simp
    · simp
  · intro hcmd
    unfold readResponse
    rw [if_neg hne, if_neg hcmd, h0]

/-- C10 (witness): the amended theorem at verb `properties` with the
garbage first line `"xyz"`. -/
theorem claim_C10_amended_witness :
    readResponse "properties".toList "xyz\n".toList
      = some ⟨0, "xyz\n".toList⟩ :=
  (claim_C10_amended "properties".toList "xyz\n".toList (by decide)
    (by decide)).2 (by decide)

/-- C6 (counterexample): a single read chunk `[65, 0, 66, 0]` contains a NUL
at position 1, but the loop only inspects the last received byte, so it
returns `[65, 0, 66]` rather than `[65]`, the bytes preceding the first
NUL. -/
theorem claim_C6_counterexample :
    (readRespOpenJ9 [[65, 0, 66, 0]] [] 8192).1 = some [65, 0, 66] ∧
    ([65, 0, 66, 0] : List Nat).takeWhile (fun b => b != 0) = [65] ∧
    some ([65, 0, 66] : List Nat) ≠ some [65] := by
  decide

/-- The read loop of `readResponseOpenJ9`, on a reply that is a NUL-free body
followed by a single terminating NUL: whatever the chunking into nonempty
reads, it returns exactly the body, and the final buffer length is the
initial one doubled some number of times. -/
theorem readRespOpenJ9_spec :
    ∀ (chunks : List (List Nat)) (acc : List Nat) (bufLen : Nat)
      (body : List Nat),
      (∀ c ∈ chunks, c ≠ []) →
      acc ++ chunks.flatten = body ++ [0] →
      (0 : Nat) ∉ acc → (0 : Nat) ∉ body →
      (readRespOpenJ9 chunks acc bufLen).1 = some body ∧
      ∃ k, (readRespOpenJ9 chunks acc bufLen).2 = bufLen * 2 ^ k := by
  intro chunks
  induction chunks with
  | nil =>
    intro acc bufLen body hne hjoin hacc hbody
    exfalso
    have hacceq : acc = body ++ [0] := by simpa using hjoin
    exact hacc (hacceq ▸ List.mem_append.mpr (Or.inr (by simp)))
  | cons c rest ih =>
    intro acc bufLen body hne hjoin hacc hbody
    have hc : c ≠ [] := hne c (by simp)
    have hjoin2 : (acc ++ c) ++ rest.flatten = body ++ [0] := by
      simpa [List.append_assoc] using hjoin
    rw [readRespOpenJ9, if_neg hc]
    by_cases hlast : (acc ++ c).getLast? = some 0
    · rw [if_pos hlast]
      have hmem0 : (0 : Nat) ∈ acc ++ c := by
        have hne2 : acc ++ c ≠ [] := fun h => by simp [h] at hlast
        have := List.getLast?_eq_getLast (acc ++ c) hne2 ▸ hlast
        exact Option.some_injective _ this ▸ List.getLast_mem hne2
      rcases List.append_eq_append_iff.mp hjoin2 with ⟨a', ha1, -⟩ | ⟨c', hc1, hc2⟩
      · exact absurd (ha1 ▸ List.mem_append.mpr (Or.inl hmem0)) hbody
      · rcases c' with - | ⟨x, t⟩
        · rw [List.append_nil] at hc1
          exact absurd (hc1 ▸ hmem0) hbody
        · have hx : x = 0 ∧ t ++ rest.flatten = [] := by
            have := hc2.symm
            simp only [List.cons_append] at this
            exact ⟨(List.cons.injEq .. ▸ this).1, (List.cons.injEq .. ▸ this).2⟩
          have ht : t = [] := (List.append_eq_nil.mp hx.2).1
          subst ht
          rw [hx.1] at hc1
          rw [hc1, List.dropLast_concat]
          exact ⟨rfl, 0, by simp⟩
    · rw [if_neg hlast]
      have hacc2 : (0 : Nat) ∉ acc ++ c := by
        intro hmem
        rcases List.append_eq_append_iff.mp hjoin2 with ⟨a', ha1, -⟩ | ⟨c', hc1, hc2⟩
        · exact hbody (ha1 ▸ List.mem_append.mpr (Or.inl hmem))
        · rcases c' with - | ⟨x, t⟩
          · rw [List.append_nil] at hc1
            exact hbody (hc1 ▸ hmem)
          · have hx : x = 0 ∧ t ++ rest.flatten = [] := by
              have := hc2.symm
              simp only [List.cons_append] at this
              exact ⟨(List.cons.injEq .. ▸ this).1, (List.cons.injEq .. ▸ this).2⟩
            have ht : t = [] := (List.append_eq_nil.mp hx.2).1
            subst ht
            rw [hx.1] at hc1
            exact hlast (hc1 ▸ List.getLast?_concat body)
      have hne2 : ∀ x ∈ rest, x ≠ [] := fun x hx => hne x (by simp [hx])
      by_cases hlen : (acc ++ c).length ≥ bufLen
      · rw [if_pos hlen]
        obtain ⟨h1, k, h2⟩ := ih (acc ++ c) (bufLen * 2) body hne2 hjoin2 hacc2 hbody
        exact ⟨h1, k + 1, by rw [h2]; ring⟩
      · rw [if_neg hlen]
        exact ih (acc ++ c) bufLen body hne2 hjoin2 hacc2 hbody

/-- C6 (amended): when the reply is a NUL-free body followed by a single
terminating NUL, then for every chunking into nonempty socket reads the loop
stops at the chunk whose last byte is the NUL and returns exactly the body
(the NUL stripped), and the buffer length used is 8192 doubled on each
exhaustion.  (In general the loop stops only when a received chunk **ends**
with NUL, not at the first NUL byte; see the counterexample.) -/
theorem claim_C6_amended (chunks : List (List Nat)) (body : List Nat)
    (hne : ∀ c ∈ chunks, c ≠ []) (hjoin : chunks.flatten = body ++ [0])
    (hbody : (0 : Nat) ∉ body) :
    (readRespOpenJ9 chunks [] 8192).1 = some body ∧
    ∃ k, (readRespOpenJ9 chunks [] 8192).2 = 8192 * 2 ^ k :=
  readRespOpenJ9_spec chunks [] 8192 body hne (by simpa using hjoin)
    (by simp) hbody

/-- C6 (witness): the amended theorem on the reply `[72, 105, 0]` delivered
in two chunks. -/
theorem claim_C6_amended_witness :
    (readRespOpenJ9 [[72], [105, 0]] [] 8192).1 = some [72, 105] ∧
    ∃ k, (readRespOpenJ9 [[72], [105, 0]] [] 8192).2 = 8192 * 2 ^ k :=
  claim_C6_amended [[72], [105, 0]] [72, 105] (by decide) (by decide)
    (by decide)

/-- C7 (counterexample): with a configured timeout of 10000 ms, neither the
HotSpot socket poll deadline nor the OpenJ9 accept deadline equals the
configured value — both are constants (6000 ms and 5000 ms). -/
theorem claim_C7_counterexample :
    ¬(hotspotPollTimeoutMs ⟨false, "", 10000⟩ = 10000 ∧
      openj9AcceptDeadlineMs ⟨false, "", 10000⟩ = 10000) := by
  decide

/-- C7 (amended): the HotSpot socket poll waits a fixed 6 seconds and the
OpenJ9 accept deadline is a fixed 5 seconds, for every options value — the
configured timeout is never consulted. -/
theorem claim_C7_amended (opts : GoOptions) :
    hotspotPollTimeoutMs opts = 6000 ∧ openj9AcceptDeadlineMs opts = 5000 :=
  ⟨rfl, rfl⟩

/-- C8: when the path stats to `(dev, ino)` the returned key is
`(projID<<24) | ((dev&0xff)<<16) | (ino&0xffff)` and the filesystem is left
alone; when the path is absent it is created as an empty file first and the
key is composed from the created file's stat; and a second call on the
resulting state returns the same key, so the key is stable across calls
while inode and device are stable. -/
theorem claim_C8 (fs : FtokFS) (path : String) (projID : Nat) :
    (∀ dev ino, fs.files path = some ⟨dev, ino⟩ →
      goFtok fs path projID =
        ((projID <<< 24) ||| ((dev &&& 0xff) <<< 16) ||| (ino &&& 0xffff), fs)) ∧
    (fs.files path = none →
      (goFtok fs path projID).1 =
        (projID <<< 24) ||| (((fs.fresh path).dev &&& 0xff) <<< 16) |||
          ((fs.fresh path).ino &&& 0xffff) ∧
      ((goFtok fs path projID).2.files path = some (fs.fresh path))) ∧
    (∀ k fs2, goFtok fs path projID = (k, fs2) →
      goFtok fs2 path projID = (k, fs2)) := by
  refine ⟨?_, ?_, ?_⟩
  · intro dev ino h
    simp [goFtok, h, ftokKeyOf]
  · intro h
    simp [goFtok, h, ftokKeyOf]
  · intro k fs2 hk
    cases h : fs.files path with
    | some st =>
      simp only [goFtok, h] at hk
      obtain ⟨rfl, rfl⟩ := Prod.mk.injEq .. ▸ hk
      simp [goFtok, h]
    | none =>
      simp only [goFtok, h] at hk
      obtain ⟨rfl, rfl⟩ := Prod.mk.injEq .. ▸ hk
      simp [goFtok]

/-- C8 (witness): the theorem applied to a filesystem where the path exists
with device 3 and inode 70000, and project id 0xa1. -/
theorem claim_C8_witness :
    goFtok ⟨fun _ => some ⟨3, 70000⟩, fun _ => ⟨0, 0⟩⟩ "notifier" 0xa1 =
      ((0xa1 <<< 24) ||| ((3 &&& 0xff) <<< 16) ||| (70000 &&& 0xffff),
       ⟨fun _ => some ⟨3, 70000⟩, fun _ => ⟨0, 0⟩⟩) :=
  (claim_C8 ⟨fun _ => some ⟨3, 70000⟩, fun _ => ⟨0, 0⟩⟩ "notifier" 0xa1).1
    3 70000 rfl

/-- The positions `lockNotifLoop` records are strictly increasing, hence no
notifier lock is taken twice. -/
theorem lockNotifLoop_pairwise :
    ∀ (entries : List NotifEntry) (i : Nat) (acc : List Nat),
      acc.Pairwise (· < ·) → (∀ x ∈ acc, x < i) →
      (lockNotifLoop entries i acc).Pairwise (· < ·) := by
  intro entries
  induction entries with
  | nil => intro i acc hp _; exact hp
  | cons e rest ih =>
    intro i acc hp hlt
    unfold lockNotifLoop
    by_cases he : entryEligible e
    · rw [if_pos he]
      cases hl : e.lockOk with
      | true =>
        have hp2 : (acc ++ [i]).Pairwise (· < ·) := by
          simp [List.pairwise_append, hp]
          exact hlt
        have hlt2 : ∀ x ∈ acc ++ [i], x < i + 1 := by
          intro x hx
          rcases List.mem_append.mp hx with h | h
          · exact Nat.lt_succ_of_lt (hlt x h)
          · simp at h
            omega
        simp only [hl, if_true]
        split
        · exact hp2
        · exact ih (i + 1) _ hp2 hlt2
      | false =>
        simp only [hl, Bool.false_eq_true, if_false]
        split
        · exact hp
        · exact ih (i + 1) acc hp (fun x hx => Nat.lt_succ_of_lt (hlt x hx))
    · rw [if_neg he]
      exact ih (i + 1) acc hp (fun x hx => Nat.lt_succ_of_lt (hlt x hx))

/-- C9: on every exit path of `AttachOpenJ9` — lock failure, socket failure,
replyInfo failure, accept/write/read failure, or success — every file lock
(the global `_attachlock` and each notifier lock actually taken) is released
exactly as often as it is acquired, and acquired at most once. -/
theorem claim_C9 (s : Scenario) (l : LockId) :
    (attachOpenJ9Events s).count (.rel l) = (attachOpenJ9Events s).count (.acq l) ∧
    (attachOpenJ9Events s).count (.acq l) ≤ 1 := by
  have hnodup : (lockNotifLoop s.entries 0 []).Nodup :=
    (lockNotifLoop_pairwise s.entries 0 [] (by simp) (by simp)).imp Nat.ne_of_lt
  unfold attachOpenJ9Events
  split
  · simp
  · split
    · cases l <;> simp [List.count_cons, beq_iff_eq]
    · split
      · cases l <;> simp [List.count_cons, beq_iff_eq]
      · have key : ∀ evs : List LockEvent,
            evs = [LockEvent.acq .attach]
              ++ (lockNotifLoop s.entries 0 []).map (fun i => LockEvent.acq (.notif i))
              ++ ((lockNotifLoop s.entries 0 []).map (fun i => LockEvent.rel (.notif i))
                  ++ [LockEvent.rel .attach]) →
            evs.count (.rel l) = evs.count (.acq l) ∧ evs.count (.acq l) ≤ 1 := by
          intro evs hevs
          subst hevs
          have hacq : Function.Injective (fun i => LockEvent.acq (.notif i)) := by
            intro a b h
            simpa using h
          have hrel : Function.Injective (fun i => LockEvent.rel (.notif i)) := by
            intro a b h
            simpa using h
          cases l with
          | attach =>
            have hz1 : ((lockNotifLoop s.entries 0 []).map
                (fun i => LockEvent.acq (.notif i))).count (LockEvent.rel .attach) = 0 := by
              simp [List.count_eq_zero]
            have hz2 : ((lockNotifLoop s.entries 0 []).map
                (fun i => LockEvent.rel (.notif i))).count (LockEvent.rel .attach) = 0 := by
              simp [List.count_eq_zero]
            have hz3 : ((lockNotifLoop s.entries 0 []).map
                (fun i => LockEvent.acq (.notif i))).count (LockEvent.acq .attach) = 0 := by
              simp [List.count_eq_zero]
            have hz4 : ((lockNotifLoop s.entries 0 []).map
                (fun i => LockEvent.rel (.notif i))).count (LockEvent.acq .attach) = 0 := by
              simp [List.count_eq_zero]
            constructor
            · simp [List.count_append, List.count_cons, hz1, hz2, hz3, hz4]
            · simp [List.count_append, List.count_cons, hz3, hz4]
          | notif j =>
            have hz5 : ((lockNotifLoop s.entries 0 []).map
                (fun i => LockEvent.acq (.notif i))).count
                  (LockEvent.rel (.notif j)) = 0 := by
              simp [List.count_eq_zero]
            have hz6 : ((lockNotifLoop s.entries 0 []).map
                (fun i => LockEvent.rel (.notif i))).count
                  (LockEvent.acq (.notif j)) = 0 := by
              simp [List.count_eq_zero]
            have hc1 : ((lockNotifLoop s.entries 0 []).map
                (fun i => LockEvent.acq (.notif i))).count
                  (LockEvent.acq (.notif j)) = (lockNotifLoop s.entries 0 []).count j :=
              List.count_map_of_injective _ _ hacq j
            have hc2 : ((lockNotifLoop s.entries 0 []).map
                (fun i => LockEvent.rel (.notif i))).count
                  (LockEvent.rel (.notif j)) = (lockNotifLoop s.entries 0 []).count j :=
              List.count_map_of_injective _ _ hrel j
            constructor
            · simp [List.count_append, List.count_cons, hz5, hz6, hc1, hc2]
            · simp [List.count_append, List.count_cons, hz6, hc1]
              exact List.nodup_iff_count_le_one.mp hnodup j
        split
        · exact key _ rfl
        · split
          · exact key _ rfl
          · split
            · exact key _ rfl
            · exact key _ rfl

/-- C10 (counterexample): for verb `load` with response `"xx\n5\n"`, the
invalid first line is silently treated as 0, but the load-specific body
parsing then supersedes it with 5 — the returned status is not 0. -/
theorem claim_C10_counterexample :
    goAtoiOk (trimSpace (firstLineOf "xx\n5\n".toList)) = false ∧
    readResponse "load".toList "xx\n5\n".toList
      = some ⟨5, "xx\n5\n".toList⟩ ∧
    (5 : Int) ≠ 0 := by
  decide

end Jattach
